import Mathlib

/-!
Verification of the account-list store in
`src/frontend/src/stores/accounts.ts`.

The store holds an ordered list of account records and a loading flag,
and exposes asynchronous operations that call a remote API client and
mutate local state.  We embed each operation as a pure function of the
current store state together with the outcome of the network calls it
awaits.  The single-threaded event-loop execution of an operation is
captured by `OpResult`:

* `preCall`  — the local store state at the moment the operation issues
  its (first) network call: optimistic operations (`deleteAccount`,
  `bulkDelete`) have already mutated the list at this point, while
  confirm-then-update operations (`disableAccount`, `enableAccount`,
  `bulkEnable`, `bulkDisable`) have not;
* `final`    — the local store state after the operation settles
  (resolves or rejects);
* `calls`    — the network calls the operation dispatches, in dispatch
  order;
* `result`   — `Except.ok ()` when the returned promise resolves,
  `Except.error ()` when a network failure propagates to the caller
  (no operation catches API errors).
-/

/-- An account record (`AdminAccount` in `types/api`), restricted to the
fields this module reads or writes: a string `id`, the `disabled` flag and
the server-imposed cooldown state. -/
structure AdminAccount where
  id : String
  disabled : Bool
  cooldown_seconds : Int
  cooldown_reason : String
deriving Repr, DecidableEq

/-- The store state: the held account list and the loading flag. -/
structure StoreState where
  accounts : List AdminAccount
  isLoading : Bool
deriving Repr, DecidableEq

/-- An account configuration item (`AccountConfigItem` in `types/api`);
the store passes it through to the API opaquely, so we model it as an
opaque payload. -/
structure AccountConfigItem where
  payload : String
deriving Repr, DecidableEq

/-- The network calls the store can dispatch on the `accountsApi`
collaborator. -/
inductive ApiCall where
  | list
  | delete (id : String)
  | disable (id : String)
  | enable (id : String)
  | bulkEnable (ids : List String)
  | bulkDisable (ids : List String)
  | updateConfig (items : List AccountConfigItem)
deriving Repr, DecidableEq

/-- The shape of a successful `accountsApi.list()` response: either a bare
array of records, or an envelope object whose `accounts` field may be
absent. -/
inductive ListResponse where
  | bare (accounts : List AdminAccount)
  | envelope (accounts : Option (List AdminAccount))
deriving Repr, DecidableEq

/-- `Array.isArray(response) ? response : response.accounts || []` —
a bare array is taken as is, an envelope contributes its `accounts` field,
defaulting to the empty list when the field is absent. -/
def parseListResponse : ListResponse → List AdminAccount
  | ListResponse.bare l => l
  | ListResponse.envelope (some l) => l
  | ListResponse.envelope none => []

/-- The observable execution of one store operation (see the module
comment). -/
structure OpResult where
  preCall : StoreState
  final : StoreState
  calls : List ApiCall
  result : Except Unit Unit
deriving Repr

/-- `loadAccounts()`: sets `isLoading` to `true`, awaits
`accountsApi.list()`, on success replaces `accounts` wholesale with the
parsed response, and clears `isLoading` in a `finally` block on both the
success and the failure path. -/
def loadAccounts (st : StoreState) (resp : Except Unit ListResponse) : OpResult :=
  let loading : StoreState := { st with isLoading := true }
  match resp with
  | Except.ok r =>
      { preCall := loading
        final := { accounts := parseListResponse r, isLoading := false }
        calls := [ApiCall.list]
        result := Except.ok () }
  | Except.error e =>
      { preCall := loading
        final := { loading with isLoading := false }
        calls := [ApiCall.list]
        result := Except.error e }

/-- `deleteAccount(accountId)`: filters the matching record(s) out of the
local list first (optimistic), then awaits `accountsApi.delete(accountId)`;
a failure of that call propagates and the list is not restored. -/
def deleteAccount (st : StoreState) (accountId : String) (apiOk : Bool) : OpResult :=
  let st1 : StoreState :=
    { st with accounts := st.accounts.filter (fun acc => acc.id != accountId) }
  { preCall := st1
    final := st1
    calls := [ApiCall.delete accountId]
    result := if apiOk then Except.ok () else Except.error () }

/-- `accounts.value.find(acc => acc.id === accountId)` followed by an
in-place mutation of the found record: the first record whose `id`
matches is replaced by `f` of it; every other record is untouched. -/
def updateFirst (accs : List AdminAccount) (accountId : String)
    (f : AdminAccount → AdminAccount) : List AdminAccount :=
  match accs with
  | [] => []
  | acc :: rest =>
      if acc.id == accountId then f acc :: rest
      else acc :: updateFirst rest accountId f

/-- The in-place mutation `disableAccount` / `bulkDisable` apply to a
found record: set `disabled` to `true`. -/
def setDisabled (a : AdminAccount) : AdminAccount :=
  { a with disabled := true }

/-- The in-place mutation `enableAccount` / `bulkEnable` apply to a found
record: clear `disabled` and zero out both cooldown fields. -/
def setEnabled (a : AdminAccount) : AdminAccount :=
  { a with disabled := false, cooldown_seconds := 0, cooldown_reason := "" }

/-- `disableAccount(accountId)`: awaits `accountsApi.disable(accountId)`
first; only on success looks the record up and sets `disabled := true`.
On rejection the error propagates and local state is untouched. -/
def disableAccount (st : StoreState) (accountId : String) (apiOk : Bool) : OpResult :=
  if apiOk then
    { preCall := st
      final := { st with accounts := updateFirst st.accounts accountId setDisabled }
      calls := [ApiCall.disable accountId]
      result := Except.ok () }
  else
    { preCall := st
      final := st
      calls := [ApiCall.disable accountId]
      result := Except.error () }

/-- `enableAccount(accountId)`: awaits `accountsApi.enable(accountId)`
first; only on success looks the record up, clears `disabled` and zeroes
`cooldown_seconds` / `cooldown_reason`.  On rejection the error propagates
and local state is untouched. -/
def enableAccount (st : StoreState) (accountId : String) (apiOk : Bool) : OpResult :=
  if apiOk then
    { preCall := st
      final := { st with accounts := updateFirst st.accounts accountId setEnabled }
      calls := [ApiCall.enable accountId]
      result := Except.ok () }
  else
    { preCall := st
      final := st
      calls := [ApiCall.enable accountId]
      result := Except.error () }

/-- `bulkEnable(accountIds)`: one network call carrying the whole id list;
on success a `forEach` over the ids applies the `setEnabled` mutation to
the first matching record of each id (ids with no match are skipped). -/
def bulkEnable (st : StoreState) (accountIds : List String) (apiOk : Bool) : OpResult :=
  if apiOk then
    { preCall := st
      final := { st with accounts :=
          accountIds.foldl (fun accs i => updateFirst accs i setEnabled) st.accounts }
      calls := [ApiCall.bulkEnable accountIds]
      result := Except.ok () }
  else
    { preCall := st
      final := st
      calls := [ApiCall.bulkEnable accountIds]
      result := Except.error () }

/-- `bulkDisable(accountIds)`: one network call carrying the whole id
list; on success a `forEach` over the ids sets `disabled := true` on the
first matching record of each id (ids with no match are skipped). -/
def bulkDisable (st : StoreState) (accountIds : List String) (apiOk : Bool) : OpResult :=
  if apiOk then
    { preCall := st
      final := { st with accounts :=
          accountIds.foldl (fun accs i => updateFirst accs i setDisabled) st.accounts }
      calls := [ApiCall.bulkDisable accountIds]
      result := Except.ok () }
  else
    { preCall := st
      final := st
      calls := [ApiCall.bulkDisable accountIds]
      result := Except.error () }

/-- `bulkDelete(accountIds)`: filters out every record whose id is in the
list first (optimistic), then dispatches one `accountsApi.delete` per id
and awaits them all with `Promise.all`, which rejects iff any individual
call rejects; local state is the same either way. -/
def bulkDelete (st : StoreState) (accountIds : List String) (apiOks : String → Bool) : OpResult :=
  let st1 : StoreState :=
    { st with accounts := st.accounts.filter (fun acc => !(accountIds.contains acc.id)) }
  { preCall := st1
    final := st1
    calls := accountIds.map ApiCall.delete
    result := if accountIds.all apiOks then Except.ok () else Except.error () }

/-- `updateConfig(newAccounts)`: awaits
`accountsApi.updateConfig(newAccounts)`; on success re-runs
`loadAccounts()` so local state is replaced by the server's fresh list.
On rejection of the config call the error propagates before `loadAccounts`
runs. -/
def updateConfig (st : StoreState) (newAccounts : List AccountConfigItem)
    (cfgOk : Bool) (resp : Except Unit ListResponse) : OpResult :=
  if cfgOk then
    let r := loadAccounts st resp
    { preCall := st
      final := r.final
      calls := ApiCall.updateConfig newAccounts :: r.calls
      result := r.result }
  else
    { preCall := st
      final := st
      calls := [ApiCall.updateConfig newAccounts]
      result := Except.error () }

/-- The data-model invariant of §3: at most one record per `id` in the
held list. -/
def idsNodup (st : StoreState) : Prop :=
  (st.accounts.map (fun a => a.id)).Nodup

instance (st : StoreState) : Decidable (idsNodup st) := by
  unfold idsNodup; infer_instance

/-- C1: after `loadAccounts` settles, `accounts` equals exactly the
server-provided sequence when the response is a bare array, or the
envelope's `accounts` field (the empty list when that field is absent),
and `isLoading` is `false` whether the call succeeded or failed. -/
theorem C1_loadAccounts_state (st : StoreState) (l : List AdminAccount) :
    (loadAccounts st (Except.ok (ListResponse.bare l))).final.accounts = l ∧
    (loadAccounts st (Except.ok (ListResponse.envelope (some l)))).final.accounts = l ∧
    (loadAccounts st (Except.ok (ListResponse.envelope none))).final.accounts = [] ∧
    (∀ resp : Except Unit ListResponse, (loadAccounts st resp).final.isLoading = false) := by
  refine ⟨rfl, rfl, rfl, fun resp => ?_⟩
  cases resp <;> rfl

/-- C2: `deleteAccount` removes the matching record(s) from the local
list before issuing the network delete call (the state at call time is
already the filtered list, with no record of the given id left), the
final state equals that pre-call state whatever the call's outcome (no
rollback), and a network failure propagates to the caller. -/
theorem C2_deleteAccount_optimistic_no_rollback (st : StoreState) (accountId : String)
    (apiOk : Bool) :
    (deleteAccount st accountId apiOk).preCall.accounts
      = st.accounts.filter (fun acc => acc.id != accountId) ∧
    ((deleteAccount st accountId apiOk).preCall.accounts.all
      (fun acc => acc.id != accountId)) = true ∧
    (deleteAccount st accountId apiOk).calls = [ApiCall.delete accountId] ∧
    (deleteAccount st accountId apiOk).final = (deleteAccount st accountId apiOk).preCall ∧
    (deleteAccount st accountId false).result = Except.error () := by
  refine ⟨rfl, ?_, rfl, rfl, rfl⟩
  simp only [deleteAccount, List.all_eq_true]
  intro acc hacc
  exact (List.mem_filter.mp hacc).2

/-- C3: `disableAccount` and `enableAccount` issue the network call
before touching local state (the pre-call state is the initial state),
mutate the first matching record only on success, and when the API call
rejects the store state is completely unchanged while the error
propagates. -/
theorem C3_confirm_then_update (st : StoreState) (accountId : String) :
    (disableAccount st accountId false).final = st ∧
    (enableAccount st accountId false).final = st ∧
    (disableAccount st accountId false).result = Except.error () ∧
    (enableAccount st accountId false).result = Except.error () ∧
    (disableAccount st accountId false).preCall = st ∧
    (enableAccount st accountId false).preCall = st ∧
    (disableAccount st accountId true).final.accounts
      = updateFirst st.accounts accountId setDisabled ∧
    (enableAccount st accountId true).final.accounts
      = updateFirst st.accounts accountId setEnabled := by
  exact ⟨rfl, rfl, rfl, rfl, rfl, rfl, rfl, rfl⟩

/-- C9: `updateConfig` dispatches the config call first and, on its
success, re-runs `loadAccounts`, so after a fully successful run the
local list equals the freshly parsed server response (with `isLoading`
cleared); when the config call rejects, no list refresh is dispatched
and the state is unchanged. -/
theorem C9_updateConfig_resync (st : StoreState) (items : List AccountConfigItem)
    (resp : ListResponse) :
    (updateConfig st items true (Except.ok resp)).calls
      = [ApiCall.updateConfig items, ApiCall.list] ∧
    (updateConfig st items true (Except.ok resp)).final.accounts = parseListResponse resp ∧
    (updateConfig st items true (Except.ok resp)).final.isLoading = false ∧
    (updateConfig st items true (Except.ok resp)).result = Except.ok () ∧
    (updateConfig st items false (Except.ok resp)).calls = [ApiCall.updateConfig items] ∧
    (updateConfig st items false (Except.ok resp)).final = st := by
  exact ⟨rfl, rfl, rfl, rfl, rfl, rfl⟩

/-- If no record of `accs` carries `accountId`, the delete filter keeps
every record. -/
theorem filter_ne_id_of_not_mem (accs : List AdminAccount) (accountId : String)
    (h : accountId ∉ accs.map (fun a => a.id)) :
    accs.filter (fun acc => acc.id != accountId) = accs := by
  induction accs with
  | nil => rfl
  | cons a rest ih =>
      simp only [List.map_cons, List.mem_cons] at h
      push_neg at h
      have hcond : (a.id != accountId) = true := by
        simp only [bne_iff_ne, ne_eq]
        exact fun he => h.1 he.symm
      rw [List.filter_cons, if_pos hcond, ih h.2]

/-- On a list whose ids are duplicate-free, the delete filter drops at
most one record. -/
theorem length_filter_delete_ge (accs : List AdminAccount) (accountId : String)
    (h : (accs.map (fun a => a.id)).Nodup) :
    accs.length ≤ (accs.filter (fun acc => acc.id != accountId)).length + 1 := by
  induction accs with
  | nil => simp
  | cons a rest ih =>
      rw [List.map_cons, List.nodup_cons] at h
      rw [List.filter_cons]
      by_cases hid : a.id = accountId
      · have hcond : (a.id != accountId) = false := by simp [hid]
        rw [hcond, if_neg (by simp)]
        have hrest : accountId ∉ rest.map (fun x => x.id) := hid ▸ h.1
        rw [filter_ne_id_of_not_mem rest accountId hrest]
        simp
      · have hcond : (a.id != accountId) = true := by
          simp only [bne_iff_ne, ne_eq]; exact hid
        rw [hcond, if_pos rfl]
        have := ih h.2
        simp only [List.length_cons]
        omega

/-- A store state with two records sharing the id "a": the uniqueness
invariant of §3 does not hold here. -/
def dupState : StoreState :=
  { accounts := [⟨"a", false, 0, ""⟩, ⟨"a", true, 5, "cooldown"⟩]
    isLoading := false }

/-- A store state with two records of distinct ids "a" and "b",
satisfying the uniqueness invariant. -/
def sampleState : StoreState :=
  { accounts := [⟨"a", false, 0, ""⟩, ⟨"b", true, 30, "rate_limit"⟩]
    isLoading := false }

/-- C4 counterexample: on a list holding two records with id "a" (the
claim quantifies over every account list), `deleteAccount "a"` removes
both records — more than one. -/
theorem C4_counterexample :
    dupState.accounts.length = 2 ∧
    (deleteAccount dupState "a" true).final.accounts.length = 0 ∧
    ¬ (dupState.accounts.length
        ≤ (deleteAccount dupState "a" true).final.accounts.length + 1) := by
  refine ⟨rfl, by decide, by decide⟩

/-- C4 (amended): on an account list satisfying the uniqueness invariant
(at most one record per id), `deleteAccount` removes at most one record,
keeps every record whose id differs, and adds or reorders nothing. -/
theorem C4_deleteAccount_removes_at_most_one (st : StoreState) (accountId : String)
    (apiOk : Bool) (h : idsNodup st) :
    st.accounts.length ≤ (deleteAccount st accountId apiOk).final.accounts.length + 1 ∧
    (∀ a ∈ st.accounts, ¬ (a.id = accountId) →
      a ∈ (deleteAccount st accountId apiOk).final.accounts) ∧
    (deleteAccount st accountId apiOk).final.accounts.Sublist st.accounts := by
  refine ⟨length_filter_delete_ge st.accounts accountId h, ?_, ?_⟩
  · intro a ha hne
    exact List.mem_filter.mpr ⟨ha, by simpa [bne_iff_ne] using hne⟩
  · exact List.filter_sublist st.accounts

/-- C4 witness: the amended statement evaluated on the concrete
two-record state with distinct ids. -/
theorem C4_witness :
    idsNodup sampleState ∧
    sampleState.accounts.length
      ≤ (deleteAccount sampleState "a" true).final.accounts.length + 1 :=
  ⟨by decide, (C4_deleteAccount_removes_at_most_one sampleState "a" true (by decide)).1⟩

/-- Mutating the first matching record in place leaves the sequence of
ids unchanged, provided the mutation preserves the record's id. -/
theorem updateFirst_map_id (accs : List AdminAccount) (accountId : String)
    (f : AdminAccount → AdminAccount) (hf : ∀ a, (f a).id = a.id) :
    (updateFirst accs accountId f).map (fun a => a.id)
      = accs.map (fun a => a.id) := by
  induction accs with
  | nil => rfl
  | cons a rest ih =>
      simp only [updateFirst]
      by_cases hid : (a.id == accountId) = true
      · rw [if_pos hid]
        simp [hf]
      · rw [if_neg hid]
        simp [ih]

/-- A `forEach` of in-place mutations over an id list leaves the sequence
of ids unchanged, provided the mutation preserves each record's id. -/
theorem foldl_updateFirst_map_id (accountIds : List String) (accs : List AdminAccount)
    (f : AdminAccount → AdminAccount) (hf : ∀ a, (f a).id = a.id) :
    ((accountIds.foldl (fun l i => updateFirst l i f) accs).map (fun a => a.id))
      = accs.map (fun a => a.id) := by
  induction accountIds generalizing accs with
  | nil => rfl
  | cons i rest ih =>
      rw [List.foldl_cons, ih (updateFirst accs i f),
        updateFirst_map_id accs i f hf]

/-- Filtering an account list keeps its id sequence duplicate-free. -/
theorem nodup_ids_filter (accs : List AdminAccount) (p : AdminAccount → Bool)
    (h : (accs.map (fun a => a.id)).Nodup) :
    ((accs.filter p).map (fun a => a.id)).Nodup :=
  h.sublist ((List.filter_sublist accs).map (fun a => a.id))

/-- C5 counterexample: starting from the empty list, which satisfies the
uniqueness invariant, `loadAccounts` on a server response carrying two
records with id "a" leaves the store violating the invariant — so the
invariant is not preserved by every store operation. -/
theorem C5_counterexample :
    idsNodup { accounts := [], isLoading := false } ∧
    ¬ idsNodup (loadAccounts { accounts := [], isLoading := false }
        (Except.ok (ListResponse.bare dupState.accounts))).final := by
  exact ⟨by decide, by decide⟩

/-- C5 (amended): every store operation except `loadAccounts` preserves
the at-most-one-record-per-id invariant; `loadAccounts` (and hence
`updateConfig`, which re-runs it) replaces the list wholesale and
satisfies the invariant exactly when the parsed server response has
duplicate-free ids, and preserves the held list on failure. -/
theorem C5_uniqueness_preservation (st : StoreState) (accountId : String)
    (accountIds : List String) (apiOk : Bool) (apiOks : String → Bool)
    (items : List AccountConfigItem) (resp : ListResponse)
    (h : idsNodup st) :
    idsNodup (deleteAccount st accountId apiOk).final ∧
    idsNodup (disableAccount st accountId apiOk).final ∧
    idsNodup (enableAccount st accountId apiOk).final ∧
    idsNodup (bulkEnable st accountIds apiOk).final ∧
    idsNodup (bulkDisable st accountIds apiOk).final ∧
    idsNodup (bulkDelete st accountIds apiOks).final ∧
    (((parseListResponse resp).map (fun a => a.id)).Nodup →
      idsNodup (loadAccounts st (Except.ok resp)).final ∧
      idsNodup (updateConfig st items true (Except.ok resp)).final) ∧
    idsNodup (loadAccounts st (Except.error ())).final := by
  refine ⟨?_, ?_, ?_, ?_, ?_, ?_, fun hresp => ⟨hresp, hresp⟩, h⟩
  · exact nodup_ids_filter st.accounts _ h
  · cases apiOk
    · exact h
    · show ((updateFirst st.accounts accountId setDisabled).map (fun a => a.id)).Nodup
      rw [updateFirst_map_id st.accounts accountId setDisabled (fun a => rfl)]
      exact h
  · cases apiOk
    · exact h
    · show ((updateFirst st.accounts accountId setEnabled).map (fun a => a.id)).Nodup
      rw [updateFirst_map_id st.accounts accountId setEnabled (fun a => rfl)]
      exact h
  · cases apiOk
    · exact h
    · show ((accountIds.foldl (fun l i => updateFirst l i setEnabled) st.accounts).map
          (fun a => a.id)).Nodup
      rw [foldl_updateFirst_map_id accountIds st.accounts setEnabled (fun a => rfl)]
      exact h
  · cases apiOk
    · exact h
    · show ((accountIds.foldl (fun l i => updateFirst l i setDisabled) st.accounts).map
          (fun a => a.id)).Nodup
      rw [foldl_updateFirst_map_id accountIds st.accounts setDisabled (fun a => rfl)]
      exact h
  · exact nodup_ids_filter st.accounts _ h

/-- C5 witness: the amended preservation statement evaluated on the
concrete two-record state with distinct ids. -/
theorem C5_witness :
    idsNodup sampleState ∧ idsNodup (deleteAccount sampleState "a" true).final :=
  ⟨by decide, (C5_uniqueness_preservation sampleState "a" [] true (fun s => true)
      [] (ListResponse.bare []) (by decide)).1⟩

/-- After the in-place `setEnabled` mutation, looking the id up again
finds a record with `disabled` cleared and both cooldown fields zeroed,
whenever a record with that id was present. -/
theorem find_updateFirst_setEnabled (accs : List AdminAccount) (accountId : String)
    (h : accs.any (fun a => a.id == accountId) = true) :
    ∃ a, (updateFirst accs accountId setEnabled).find? (fun x => x.id == accountId)
        = some a ∧
      a.disabled = false ∧ a.cooldown_seconds = 0 ∧ a.cooldown_reason = "" := by
  induction accs with
  | nil => simp at h
  | cons a rest ih =>
      simp only [List.any_cons, Bool.or_eq_true] at h
      simp only [updateFirst]
      by_cases hid : (a.id == accountId) = true
      · rw [if_pos hid]
        refine ⟨setEnabled a, ?_, rfl, rfl, rfl⟩
        have hsid : ((setEnabled a).id == accountId) = true := hid
        simp [List.find?, hsid]
      · rw [if_neg hid]
        have h2 : rest.any (fun x => x.id == accountId) = true := by
          rcases h with h1 | h2
          · exact absurd h1 hid
          · exact h2
        obtain ⟨b, hb, hfields⟩ := ih h2
        refine ⟨b, ?_, hfields⟩
        simp [List.find?, hid, hb]

/-- C6: when the list holds a record with the given id, a successful
`enableAccount` leaves a record under that id with `disabled = false`,
`cooldown_seconds = 0` and `cooldown_reason = ""`. -/
theorem C6_enableAccount_clears_cooldown (st : StoreState) (accountId : String)
    (h : st.accounts.any (fun a => a.id == accountId) = true) :
    ∃ a, (enableAccount st accountId true).final.accounts.find?
          (fun x => x.id == accountId) = some a ∧
      a.disabled = false ∧ a.cooldown_seconds = 0 ∧ a.cooldown_reason = "" :=
  find_updateFirst_setEnabled st.accounts accountId h

/-- The spec's concrete scenario state: a single record with id "1" in a
30-second cooldown. -/
def cooldownState : StoreState :=
  { accounts := [⟨"1", false, 30, "rate_limit"⟩], isLoading := false }

/-- C6 witness: enabling the concrete cooled-down record with id "1". -/
theorem C6_witness :
    ∃ a, (enableAccount cooldownState "1" true).final.accounts.find?
          (fun x => x.id == "1") = some a ∧
      a.disabled = false ∧ a.cooldown_seconds = 0 ∧ a.cooldown_reason = "" :=
  C6_enableAccount_clears_cooldown cooldownState "1" (by decide)

/-- C7: `bulkDelete` removes every record whose id is in the given list
from local state already at the moment its network calls are dispatched,
the final state equals that pre-call state whatever the outcomes, and it
dispatches exactly one delete call per id, in order. -/
theorem C7_bulkDelete_optimistic_fanout (st : StoreState) (accountIds : List String)
    (apiOks : String → Bool) :
    (bulkDelete st accountIds apiOks).preCall.accounts
      = st.accounts.filter (fun acc => !(accountIds.contains acc.id)) ∧
    ((bulkDelete st accountIds apiOks).preCall.accounts.all
      (fun acc => !(accountIds.contains acc.id))) = true ∧
    (bulkDelete st accountIds apiOks).final = (bulkDelete st accountIds apiOks).preCall ∧
    (bulkDelete st accountIds apiOks).calls = accountIds.map ApiCall.delete ∧
    (bulkDelete st accountIds apiOks).calls.length = accountIds.length := by
  refine ⟨rfl, ?_, rfl, rfl, ?_⟩
  · simp only [bulkDelete, List.all_eq_true]
    intro acc hacc
    exact (List.mem_filter.mp hacc).2
  · simp [bulkDelete]

/-- When no record carries the looked-up id, the in-place mutation finds
nothing and the list is returned unchanged. -/
theorem updateFirst_of_not_mem (accs : List AdminAccount) (accountId : String)
    (f : AdminAccount → AdminAccount)
    (h : accountId ∉ accs.map (fun a => a.id)) :
    updateFirst accs accountId f = accs := by
  induction accs with
  | nil => rfl
  | cons a rest ih =>
      simp only [List.map_cons, List.mem_cons] at h
      push_neg at h
      simp only [updateFirst]
      rw [if_neg ?_, ih h.2]
      simp only [beq_iff_eq]
      exact fun he => h.1 he.symm

/-- When none of the looked-up ids is carried by any record, the whole
`forEach` of in-place mutations returns the list unchanged. -/
theorem foldl_updateFirst_of_not_mem (accountIds : List String)
    (accs : List AdminAccount) (f : AdminAccount → AdminAccount)
    (h : ∀ i ∈ accountIds, i ∉ accs.map (fun a => a.id)) :
    accountIds.foldl (fun l i => updateFirst l i f) accs = accs := by
  induction accountIds with
  | nil => rfl
  | cons i rest ih =>
      rw [List.foldl_cons, updateFirst_of_not_mem accs i f (h i (by simp)),
        ih (fun j hj => h j (by simp [hj]))]

/-- C8: for ids carried by no record of the list, `enableAccount`,
`disableAccount`, `bulkEnable` and `bulkDisable` leave the store state
completely unchanged while still dispatching their network call. -/
theorem C8_absent_id_noop (st : StoreState) (accountId : String)
    (accountIds : List String) (apiOk : Bool)
    (h1 : accountId ∉ st.accounts.map (fun a => a.id))
    (h2 : ∀ i ∈ accountIds, i ∉ st.accounts.map (fun a => a.id)) :
    (enableAccount st accountId apiOk).final = st ∧
    (disableAccount st accountId apiOk).final = st ∧
    (bulkEnable st accountIds apiOk).final = st ∧
    (bulkDisable st accountIds apiOk).final = st ∧
    (enableAccount st accountId apiOk).calls = [ApiCall.enable accountId] ∧
    (disableAccount st accountId apiOk).calls = [ApiCall.disable accountId] ∧
    (bulkEnable st accountIds apiOk).calls = [ApiCall.bulkEnable accountIds] ∧
    (bulkDisable st accountIds apiOk).calls = [ApiCall.bulkDisable accountIds] := by
  cases apiOk
  · exact ⟨rfl, rfl, rfl, rfl, rfl, rfl, rfl, rfl⟩
  · refine ⟨?_, ?_, ?_, ?_, rfl, rfl, rfl, rfl⟩
    · show ({ st with accounts := updateFirst st.accounts accountId setEnabled }
          : StoreState) = st
      rw [updateFirst_of_not_mem st.accounts accountId setEnabled h1]
    · show ({ st with accounts := updateFirst st.accounts accountId setDisabled }
          : StoreState) = st
      rw [updateFirst_of_not_mem st.accounts accountId setDisabled h1]
    · show ({ st with accounts :=
          accountIds.foldl (fun l i => updateFirst l i setEnabled) st.accounts }
          : StoreState) = st
      rw [foldl_updateFirst_of_not_mem accountIds st.accounts setEnabled h2]
    · show ({ st with accounts :=
          accountIds.foldl (fun l i => updateFirst l i setDisabled) st.accounts }
          : StoreState) = st
      rw [foldl_updateFirst_of_not_mem accountIds st.accounts setDisabled h2]

/-- C8 witness: enabling / bulk-enabling the absent id "zz" on the
concrete two-record state leaves it unchanged. -/
theorem C8_witness :
    (enableAccount sampleState "zz" true).final = sampleState ∧
    (bulkEnable sampleState ["zz"] true).final = sampleState :=
  ⟨(C8_absent_id_noop sampleState "zz" ["zz"] true (by decide) (by decide)).1,
   (C8_absent_id_noop sampleState "zz" ["zz"] true (by decide) (by decide)).2.2.1⟩

/-- The frame relation for the disable operations: the new record keeps
the old record's id and both cooldown fields, and is entirely unchanged
whenever its id is not among the touched ones (only `disabled` may ever
differ, and only on touched records). -/
def disableFrame (touched : String → Prop) (o n : AdminAccount) : Prop :=
  n.id = o.id ∧ n.cooldown_seconds = o.cooldown_seconds ∧
  n.cooldown_reason = o.cooldown_reason ∧ (¬ touched o.id → n = o)

/-- The frame relation holds reflexively on any list. -/
theorem forall2_disableFrame_refl (touched : String → Prop)
    (accs : List AdminAccount) :
    List.Forall₂ (disableFrame touched) accs accs := by
  induction accs with
  | nil => exact List.Forall₂.nil
  | cons a rest ih => exact List.Forall₂.cons ⟨rfl, rfl, rfl, fun h => rfl⟩ ih

/-- Setting `disabled` on the first record matching `accountId` is in the
frame relation touching exactly that id. -/
theorem updateFirst_disableFrame (accs : List AdminAccount) (accountId : String) :
    List.Forall₂ (disableFrame (fun s => s = accountId)) accs
      (updateFirst accs accountId setDisabled) := by
  induction accs with
  | nil => exact List.Forall₂.nil
  | cons a rest ih =>
      simp only [updateFirst]
      by_cases hid : (a.id == accountId) = true
      · rw [if_pos hid]
        exact List.Forall₂.cons
          ⟨rfl, rfl, rfl, fun hn => absurd (beq_iff_eq.mp hid) hn⟩
          (forall2_disableFrame_refl _ rest)
      · rw [if_neg hid]
        exact List.Forall₂.cons ⟨rfl, rfl, rfl, fun h => rfl⟩ ih

/-- The frame relation composes, accumulating the touched sets. -/
theorem disableFrame_comp (t1 t2 : String → Prop) (o m n : AdminAccount)
    (h1 : disableFrame t1 o m) (h2 : disableFrame t2 m n) :
    disableFrame (fun s => t1 s ∨ t2 s) o n := by
  obtain ⟨hi1, hc1, hr1, hu1⟩ := h1
  obtain ⟨hi2, hc2, hr2, hu2⟩ := h2
  refine ⟨hi2.trans hi1, hc2.trans hc1, hr2.trans hr1, fun hnt => ?_⟩
  rw [not_or] at hnt
  have hmo : m = o := hu1 hnt.1
  have hn2 : ¬ t2 m.id := by rw [hmo]; exact hnt.2
  rw [hu2 hn2, hmo]

/-- Pointwise composition of the frame relation over whole lists. -/
theorem forall2_disableFrame_trans (t1 t2 : String → Prop)
    (os ms ns : List AdminAccount)
    (h1 : List.Forall₂ (disableFrame t1) os ms)
    (h2 : List.Forall₂ (disableFrame t2) ms ns) :
    List.Forall₂ (disableFrame (fun s => t1 s ∨ t2 s)) os ns := by
  induction h1 generalizing ns with
  | nil =>
      cases h2
      exact List.Forall₂.nil
  | cons hrel hrest ih =>
      cases h2 with
      | cons hrel2 hrest2 =>
          exact List.Forall₂.cons (disableFrame_comp _ _ _ _ _ hrel hrel2) (ih _ hrest2)

/-- Enlarging the touched set preserves the frame relation. -/
theorem disableFrame_mono (t1 t2 : String → Prop) (himp : ∀ s, t1 s → t2 s)
    (o n : AdminAccount) (h : disableFrame t1 o n) : disableFrame t2 o n :=
  ⟨h.1, h.2.1, h.2.2.1, fun hnt => h.2.2.2 (fun ht => hnt (himp _ ht))⟩

/-- The `forEach` of `setDisabled` mutations is in the frame relation
touching exactly the ids of the given list. -/
theorem foldl_updateFirst_disableFrame (accountIds : List String)
    (accs : List AdminAccount) :
    List.Forall₂ (disableFrame (fun s => s ∈ accountIds)) accs
      (accountIds.foldl (fun l i => updateFirst l i setDisabled) accs) := by
  induction accountIds generalizing accs with
  | nil => exact forall2_disableFrame_refl _ accs
  | cons i rest ih =>
      rw [List.foldl_cons]
      have hcomb := forall2_disableFrame_trans _ _ _ _ _
        (updateFirst_disableFrame accs i) (ih (updateFirst accs i setDisabled))
      refine hcomb.imp (fun o n h => disableFrame_mono _ _ (fun s hs => ?_) o n h)
      simpa [List.mem_cons] using hs

/-- C10: a successful `disableAccount` / `bulkDisable` keeps `isLoading`,
the list length and order, every record's id and both cooldown fields,
and leaves every record whose id is not among the targeted ones entirely
unchanged — only the `disabled` field of targeted records may change. -/
theorem C10_disable_frame_only (st : StoreState) (accountId : String)
    (accountIds : List String) :
    (disableAccount st accountId true).final.isLoading = st.isLoading ∧
    (bulkDisable st accountIds true).final.isLoading = st.isLoading ∧
    List.Forall₂ (disableFrame (fun s => s = accountId)) st.accounts
      (disableAccount st accountId true).final.accounts ∧
    List.Forall₂ (disableFrame (fun s => s ∈ accountIds)) st.accounts
      (bulkDisable st accountIds true).final.accounts :=
  ⟨rfl, rfl, updateFirst_disableFrame st.accounts accountId,
    foldl_updateFirst_disableFrame accountIds st.accounts⟩
